import Mathlib

/-!
# Verification of the hyperparameter scoped parameter store

Shallow embedding of the core of `reiase/hyperparameter`
(`src/hyperparameter/storage.py`, `src/hyperparameter/api.py`,
`src/hyperparameter/tune.py`) and proofs of the spec claims.

Python dictionaries are modelled as association lists without duplicate
keys (`KeyStore`); overwriting a key keeps its position, a new key is
appended, mirroring CPython dict insertion-order semantics.  Python
runtime values are modelled by the inductive `PyObj`; a `Suggester`
(`tune.py`) is a zero-argument producer and is modelled by the value it
produces when invoked.  Python floats are modelled by rationals, which is
exact for the decimal literals the store's coercion parses.
-/

namespace HyperParam

/-- Model of the Python runtime values handled by the store: `None`,
`bool`, `int`, `float` (as an exact rational), `str`, lists, mappings
(only ever seen on the write path — the store flattens them away), and
`Suggester` objects (`tune.py`), modelled by the value their zero-argument
callback produces. -/
inductive PyObj where
  | none : PyObj
  | boolV : Bool → PyObj
  | intV : Int → PyObj
  | floatV : Rat → PyObj
  | strV : String → PyObj
  | listV : List PyObj → PyObj
  | dictV : List (String × PyObj) → PyObj
  | suggester : PyObj → PyObj
deriving Repr

/-- True iff the value is a Python mapping (`isinstance(v, dict)`). -/
def PyObj.isDict : PyObj → Bool
  | .dictV _ => true
  | _ => false

/-- A Python dict `str -> value`, as an insertion-ordered association
list with no duplicate keys. -/
abbrev KeyStore := List (String × PyObj)

/-- Dict read: `storage[key]` / `key in storage`, as an `Option`. -/
def kget : KeyStore → String → Option PyObj
  | [], _ => Option.none
  | (k', v') :: rest, k => if k' = k then some v' else kget rest k

/-- Dict write `storage[key] = v`: overwrite in place when the key is
present (CPython keeps the original position), append otherwise. -/
def kput : KeyStore → String → PyObj → KeyStore
  | [], k, v => [(k, v)]
  | (k', v') :: rest, k, v =>
    if k' = k then (k, v) :: rest else (k', v') :: kput rest k v

/-- Model of `storage.keys()`. -/
def skeys (s : KeyStore) : List String := s.map Prod.fst

/-- The key built for one entry of `_DictStorage.update`'s recursion:
`f"{prefix}.{k}" if prefix is not None else f"{k}"` (storage.py:159). -/
def joinKey : Option String → String → String
  | some p, k => p ++ "." ++ k
  | Option.none, k => k

/-- The flattening pass of `_DictStorage.update` (storage.py:157-165):
walk the nested mapping depth first, joining key segments with `"."`,
and emit one scalar entry per non-dict leaf. -/
def flattenEntries (pre : Option String) : List (String × PyObj) → List (String × PyObj)
  | [] => []
  | (k, .dictV es) :: rest =>
    flattenEntries (some (joinKey pre k)) es ++ flattenEntries pre rest
  | (k, v) :: rest => (joinKey pre k, v) :: flattenEntries pre rest
termination_by l => sizeOf l
decreasing_by
  all_goals simp_wf <;> omega

/-- Model of `_DictStorage.update(kws)` (storage.py:148-165): flatten the incoming
mapping, then assign every flattened pair into the underlying dict in
order. -/
def updateKS (s : KeyStore) (kws : List (String × PyObj)) : KeyStore :=
  (flattenEntries Option.none kws).foldl (fun acc p => kput acc p.1 p.2) s

/-- Model of the non-slot path of `_DictStorage.put(name, value)`
(storage.py:191): delegate to `update({name: value})`.  For the two
slot names `"_storage"`/`"_parent"` the source instead takes the
`name in self.__slots__` branch (storage.py:189-190) and writes the raw
value into the instance `__dict__`; that full object behaviour is
modelled by `dsPut` below.  The statements proved over `dput` also hold
on the slot path: a slot-name `put` round-trips through the shadow
`__dict__` while leaving every other key, the `_storage` dict and
`keys()` untouched. -/
def dput (s : KeyStore) (name : String) (v : PyObj) : KeyStore :=
  updateKS s [(name, v)]

/-- The store-level errors that Python code in the store can raise. -/
inductive PyErr where
  | keyError : String → PyErr
deriving Repr, DecidableEq

/-- Model of `_DictStorage.get(name)` (storage.py:177-185): walk the
`self`/`_parent` chain of dicts and raise
`KeyError("Parameter ... not found in storage")` when no frame holds the
key.  A frame whose `_storage` is still `None` behaves as an empty dict.
In the `TLSKVStorage` wiring the chain is always a single frame. -/
def dictGet : List KeyStore → String → Except PyErr PyObj
  | [], name => .error (.keyError name)
  | s :: rest, name =>
    match kget s name with
    | some v => .ok v
    | Option.none => dictGet rest name

/-! ## Python numeric conversions

Models of the CPython builtins `int(..)`, `float(..)`, `str(..)` as the
store's coercion path uses them.  String parsing is modelled for plain
decimal forms (optional sign, digits, at most one dot, surrounding
whitespace) — the forms the spec's coercion table and examples exercise;
exponents, `inf`/`nan` and underscore separators are out of the model. -/

/-- Value of a string of decimal digits. -/
def digitsToNat (l : List Char) : Nat :=
  l.foldl (fun a c => a * 10 + (c.toNat - 48)) 0

/-- Strip leading and trailing whitespace, on the character list (the
byte-indexed `String.trim` does not reduce in the kernel). -/
def charTrim (l : List Char) : List Char :=
  ((l.dropWhile Char.isWhitespace).reverse.dropWhile Char.isWhitespace).reverse

/-- Lower-case a string character by character, as `str.lower()` does
for ASCII. -/
def lowerStr (s : String) : String :=
  String.mk (s.toList.map Char.toLower)

/-- Model of `float(s)` on a string: optional surrounding whitespace, optional
sign, then digits with at most one `'.'` and at least one digit. -/
def pyParseFloat (s : String) : Option Rat :=
  let chars := charTrim s.toList
  let neg := chars.head? = some '-'
  let rest := match chars with
    | '-' :: r => r
    | '+' :: r => r
    | r => r
  if rest ≠ [] ∧ rest.all (fun c => c.isDigit || c == '.')
      ∧ rest.any Char.isDigit ∧ (rest.filter (· == '.')).length ≤ 1 then
    let intPart := rest.takeWhile (· ≠ '.')
    let fracPart := (rest.dropWhile (· ≠ '.')).drop 1
    let mag : Rat := mkRat (digitsToNat (intPart ++ fracPart) : Int) (10 ^ fracPart.length)
    some (if neg then -mag else mag)
  else
    Option.none

/-- Model of `int(s)` on a string: optional surrounding whitespace, optional
sign, then decimal digits only. -/
def pyParseInt (s : String) : Option Int :=
  let chars := charTrim s.toList
  let neg := chars.head? = some '-'
  let rest := match chars with
    | '-' :: r => r
    | '+' :: r => r
    | r => r
  if rest ≠ [] ∧ rest.all Char.isDigit then
    some (if neg then -(digitsToNat rest : Int) else (digitsToNat rest : Int))
  else
    Option.none

/-- Truncation toward zero, as `int()` applied to a Python float. -/
def ratTrunc (q : Rat) : Int :=
  if q < 0 then -(Rat.floor (-q)) else Rat.floor q

/-- Model of `int(value)`: `none` when the call raises (`TypeError`/`ValueError`). -/
def pyInt : PyObj → Option Int
  | .boolV b => some (if b then 1 else 0)
  | .intV n => some n
  | .floatV q => some (ratTrunc q)
  | .strV s => pyParseInt s
  | _ => Option.none

/-- Model of `float(value)`: `none` when the call raises. -/
def pyFloat : PyObj → Option Rat
  | .boolV b => some (if b then 1 else 0)
  | .intV n => some (n : Rat)
  | .floatV q => some q
  | .strV s => pyParseFloat s
  | _ => Option.none

/-- Model of `str(value)`.  Exact for `None`, booleans, integers and strings (the
scalars the coercion table stringifies); float and container reprs are
best-effort since no observed behaviour depends on their exact text. -/
def pyStr : PyObj → String
  | .none => "None"
  | .boolV b => if b then "True" else "False"
  | .intV n => toString n
  | .floatV q => toString q
  | .strV s => s
  | .listV _ => "<list>"
  | .dictV _ => "<dict>"
  | .suggester _ => "<Suggester>"

/-! ## Accessor resolution (`api.py`) -/

/-- Result of `_HyperParameter.get(name)` (api.py:302-306): the stored
value, or — when the storage lookup raised `KeyError`/`ValueError` — a
`_ParamAccessor` sentinel marking the parameter as missing. -/
inductive GetResult where
  | found : PyObj → GetResult
  | missing : GetResult
deriving Repr

/-- Model of `_ParamAccessor._convert_to_bool(value, default)` (api.py:194-208). -/
def convertToBool (value : PyObj) (default : Bool) : Bool :=
  match value with
  | .none => default
  | .boolV b => b
  | .intV n => decide (n ≠ 0)
  | .strV s =>
    let l := lowerStr s
    if l = "y" ∨ l = "yes" ∨ l = "t" ∨ l = "true" ∨ l = "on" ∨ l = "1" then
      true
    else if l = "n" ∨ l = "no" ∨ l = "f" ∨ l = "false" ∨ l = "off" ∨ l = "0" then
      false
    else
      default
  | _ => default

/-- Model of `_ParamAccessor._convert_to_int(value, default)` (api.py:210-221):
try `int(value)`, then `int(float(value))`; `none` on total failure. -/
def convertToInt (value : PyObj) (default : Int) : Option Int :=
  match value with
  | .none => some default
  | v =>
    match pyInt v with
    | some n => some n
    | Option.none =>
      match pyFloat v with
      | some q => some (ratTrunc q)
      | Option.none => Option.none

/-- Model of `_ParamAccessor._convert_to_float(value, default)` (api.py:223-228):
try `float(value)`; `none` on failure (including `TypeError` on `None`). -/
def convertToFloat (value : PyObj) : Option Rat :=
  pyFloat value

/-- Model of `_ParamAccessor.get_or_else(default)` (api.py:130-192), as an
`Except` so that an uncaught exception would be visible in the result
type.  Branches in source order: missing parameter returns the default;
a stored `Suggester` is invoked and its product returned immediately; a
`None` default returns the value as-is; otherwise dispatch on
`type(default)` (`bool` before `int`, so a `bool` default never takes
the `int` branch, matching `type(d) is int`). -/
def getOrElseE (value : GetResult) (default : PyObj) : Except PyErr PyObj :=
  match value with
  | .missing => .ok default
  | .found v =>
    match v with
    | .suggester p => .ok p
    | v =>
      match default with
      | .none => .ok v
      | .boolV d => .ok (.boolV (convertToBool v d))
      | .intV d =>
        match v with
        | .strV s =>
          match pyParseFloat s with
          | some q => .ok (if q.den = 1 then .intV q.num else .floatV q)
          | Option.none =>
            match convertToInt (.strV s) d with
            | some n => .ok (.intV n)
            | Option.none => .ok (.strV s)
        | v =>
          match convertToInt v d with
          | some n => .ok (.intV n)
          | Option.none => .ok v
      | .floatV _ =>
        match convertToFloat v with
        | some q => .ok (.floatV q)
        | Option.none => .ok v
      | .strV _ => .ok (.strV (pyStr v))
      | _ => .ok v

/-- Model of `_HyperParameter.get(name)` (api.py:302-306) over a single-frame
storage: catch the storage `KeyError` and return the missing sentinel. -/
def hpGet (s : KeyStore) (name : String) : GetResult :=
  match dictGet [s] name with
  | .ok v => .found v
  | .error _ => .missing

/-- A parameter accessor call `hp.path(default)` / `hp.path | default`
(`_ParamAccessor.__call__`/`__or__`, api.py:263-268): resolve `name`
against the store and apply `get_or_else`.  A strict call passes
`default = None` (`default: Optional[T] = None`). -/
def accessorResolve (s : KeyStore) (name : String) (default : PyObj) :
    Except PyErr PyObj :=
  getOrElseE (hpGet s name) default

/-- Model of `_ParamAccessor.__getattr__` chaining (api.py:233-237): each
attribute access extends the dotted path without touching the store;
starting from a root accessor with no name, a chain of attribute
names builds their dot-joined concatenation. -/
def chainName : List String → Option String → Option String
  | [], acc => acc
  | a :: rest, acc =>
    match acc with
    | Option.none => chainName rest (some a)
    | some p => chainName rest (some (p ++ "." ++ a))

/-- Reading through a chained accessor with a default, with the store
threaded explicitly so that any write the read path performed would be
visible: the resolution path (`__getattr__*` then `get_or_else`) calls
only `get`, never `put`/`update`, so the store passes through
unchanged. -/
def accessorChainRead (s : KeyStore) (path : List String) (default : PyObj) :
    (Except PyErr PyObj) × KeyStore :=
  match chainName path Option.none with
  | Option.none => (.ok default, s)
  | some name => (accessorResolve s name default, s)

/-- Model of `_ParamAccessor.__setattr__` (api.py:239-246) on a chained path:
writes `root.put(full_dotted_key, value)` for a non-dict value, and
`root.update({full_dotted_key: value})` for a dict value. -/
def accessorChainWrite (s : KeyStore) (path : List String) (v : PyObj) : KeyStore :=
  match chainName path Option.none with
  | Option.none => s
  | some name =>
    match v with
    | .dictV es => updateKS s [(name, .dictV es)]
    | w => dput s name w

/-! ## Context stack and scopes (`storage.py`: `_CTX_STACK`, `TLSKVStorage`)

One execution context is modelled by a `World`: the value of the
`ContextVar` stack `_CTX_STACK` (top of stack = last element, as in the
tuple representation), the process-wide `GLOBAL_STORAGE` dict, and a
counter supplying fresh object identities (`id(...)`, which `exit` uses
for its `stack[-1] is self` check). -/

/-- A `TLSKVStorage` object: its identity (`id(self._inner)`, stored in
`self._handler`) and its backend store `self._inner`. -/
structure TLS where
  handler : Nat
  inner : KeyStore
deriving Repr

/-- The state visible to one execution context. -/
structure World where
  ctxStack : List TLS
  globalStorage : KeyStore
  nextId : Nat
deriving Repr

/-- Copying a dict into a freshly created backend store
(`_copy_storage(src, dst)` with `dst` empty delegates to
`dst.update(src)`), as done both when inheriting from the stack top and
when seeding from the global snapshot. -/
def cloneStore (s : KeyStore) : KeyStore :=
  updateKS [] s

/-- Model of `TLSKVStorage.__init__(None)` (storage.py:238-262): when the context
stack is non-empty, the new storage is a clone of the top of stack's
backend dict; when it is empty, a fresh backend is seeded from a locked
snapshot of `GLOBAL_STORAGE`.  The handler is the fresh object
identity. -/
def newTLS (w : World) : TLS × World :=
  match w.ctxStack.getLast? with
  | some top =>
    (⟨w.nextId, cloneStore top.inner⟩, { w with nextId := w.nextId + 1 })
  | Option.none =>
    (⟨w.nextId, cloneStore w.globalStorage⟩, { w with nextId := w.nextId + 1 })

/-- Creating and entering a `param_scope` with overrides `O`:
`param_scope.__init__` builds a fresh `TLSKVStorage` and applies
`self.update(O)` (flattening); `__enter__` then calls `storage.enter()`,
which pushes the storage onto `_CTX_STACK` (storage.py:319-326).
Returns the entered scope's storage together with the new world. -/
def enterScope (overrides : List (String × PyObj)) (w : World) : TLS × World :=
  let (t, w1) := newTLS w
  let t' : TLS := ⟨t.handler, updateKS t.inner overrides⟩
  (t', { w1 with ctxStack := w1.ctxStack ++ [t'] })

/-- A mutation performed inside a scope through the current scope's
storage: `put(name, value)` or `update(mapping)`. -/
inductive StoreOp where
  | put : String → PyObj → StoreOp
  | update : List (String × PyObj) → StoreOp

/-- Effect of one mutation on a backend store. -/
def applyOp (s : KeyStore) : StoreOp → KeyStore
  | .put k v => dput s k v
  | .update es => updateKS s es

/-- Mutations inside the scope act on the storage at the top of the
context stack (the entered scope's own storage object). -/
def applyOpTop (w : World) (op : StoreOp) : World :=
  match w.ctxStack.getLast? with
  | some top =>
    { w with ctxStack := w.ctxStack.dropLast ++ [⟨top.handler, applyOp top.inner op⟩] }
  | Option.none => w

/-- A sequence of in-scope mutations. -/
def applyOps (w : World) (ops : List StoreOp) : World :=
  ops.foldl applyOpTop w

/-- Model of `TLSKVStorage.exit()` (storage.py:328-339): pop the context stack
only when it is non-empty and its top is the exiting storage object
(`stack[-1] is self`, compared here by object identity); in every other
case the stack is left untouched and no error is raised
(`_pop_ctx_stack` likewise returns the stack unchanged when empty). -/
def exitScope (h : Nat) (w : World) : World :=
  match w.ctxStack.getLast? with
  | some top =>
    if top.handler = h then { w with ctxStack := w.ctxStack.dropLast } else w
  | Option.none => w

/-- Model of `TLSKVStorage.frozen()` (storage.py:350-355): when the context stack
is non-empty, merge the top frame's dict into `GLOBAL_STORAGE` under the
lock (`GLOBAL_STORAGE.update(stack[-1].storage())`); otherwise do
nothing.  The context stack itself is never modified. -/
def freezeOp (w : World) : World :=
  match w.ctxStack.getLast? with
  | some top => { w with globalStorage := updateKS w.globalStorage top.inner }
  | Option.none => w

/-- The store observed by a reader in world `w`: reads go through
`TLSKVStorage.current()` (storage.py:341-348), i.e. the top frame when
one exists; a brand-new context materializes its first frame from the
global baseline. -/
def observedStore (w : World) : KeyStore :=
  match w.ctxStack.getLast? with
  | some top => top.inner
  | Option.none => cloneStore w.globalStorage

/-! ## Store invariants

Python dicts cannot hold duplicate keys, and the flattening write path
never stores a mapping as a value.  Both facts are representation
invariants of the association-list model. -/

/-- No stored value is a Python mapping. -/
def NoDictVal (s : KeyStore) : Prop :=
  ∀ p ∈ s, p.2.isDict = false

/-- The association list holds each key at most once (true of every
Python dict). -/
def NodupKeys (s : KeyStore) : Prop :=
  (skeys s).Nodup

/-- Helper for C10: all values of the entry list are mappings whose
leaves are all empty mappings. -/
def allEmptyEntries : List (String × PyObj) → Bool
  | [] => true
  | (_, v) :: rest =>
    (match v with
     | .dictV es => allEmptyEntries es
     | _ => false) && allEmptyEntries rest

/-- Predicate for C10: a value that is a mapping all of whose leaves are
empty mappings (so flattening it yields no scalar entry). -/
def allEmptyDict : PyObj → Bool
  | .dictV es => allEmptyEntries es
  | _ => false

/-! ## Lemmas about the store operations -/

@[simp] theorem skeys_nil : skeys [] = [] := rfl

@[simp] theorem skeys_cons (k : String) (v : PyObj) (tl : KeyStore) :
    skeys ((k, v) :: tl) = k :: skeys tl := rfl

theorem kget_kput_self (s : KeyStore) (k : String) (v : PyObj) :
    kget (kput s k v) k = some v := by
  induction s with
  | nil => simp [kput, kget]
  | cons hd tl ih =>
    obtain ⟨k', v'⟩ := hd
    by_cases hk : k' = k
    · simp [kput, kget, hk]
    · simp [kput, kget, hk, ih]

theorem kget_kput_ne (s : KeyStore) (k k' : String) (v : PyObj) (h : k' ≠ k) :
    kget (kput s k v) k' = kget s k' := by
  have hne : k ≠ k' := fun h' => h h'.symm
  induction s with
  | nil => simp [kput, kget, hne]
  | cons hd tl ih =>
    obtain ⟨k0, v0⟩ := hd
    by_cases hk : k0 = k
    · subst hk
      simp [kput, kget, hne]
    · simp [kput, kget, hk, ih]

theorem mem_skeys_kput_of_mem (s : KeyStore) (k a : String) (v : PyObj)
    (h : a ∈ skeys s) : a ∈ skeys (kput s k v) := by
  induction s with
  | nil => simp [skeys] at h
  | cons hd tl ih =>
    obtain ⟨k0, v0⟩ := hd
    by_cases hk : k0 = k
    · simp [skeys, kput, hk] at h ⊢
      rcases h with h | h
      · exact Or.inl (hk ▸ h)
      · exact Or.inr h
    · simp [skeys, kput, hk] at h ⊢
      rcases h with h | h
      · exact Or.inl h
      · exact Or.inr (by simpa [skeys] using ih (by simpa [skeys] using h))

theorem mem_skeys_kput (s : KeyStore) (k a : String) (v : PyObj)
    (h : a ∈ skeys (kput s k v)) : a ∈ skeys s ∨ a = k := by
  induction s with
  | nil => simpa [skeys, kput] using h
  | cons hd tl ih =>
    obtain ⟨k0, v0⟩ := hd
    by_cases hk : k0 = k
    · simp [skeys, kput, hk] at h ⊢
      rcases h with h | h
      · exact Or.inr h
      · exact Or.inl (Or.inr h)
    · simp [skeys, kput, hk] at h ⊢
      rcases h with h | h
      · exact Or.inl (Or.inl h)
      · rcases ih (by simpa [skeys] using h) with h' | h'
        · exact Or.inl (Or.inr (by simpa [skeys] using h'))
        · exact Or.inr h'

theorem mem_skeys_kput_self (s : KeyStore) (k : String) (v : PyObj) :
    k ∈ skeys (kput s k v) := by
  induction s with
  | nil => simp [skeys, kput]
  | cons hd tl ih =>
    obtain ⟨k0, v0⟩ := hd
    by_cases hk : k0 = k
    · simp [skeys, kput, hk]
    · simp [skeys, kput, hk]
      exact Or.inr (by simpa [skeys] using ih)

theorem kput_of_not_mem (s : KeyStore) (k : String) (v : PyObj)
    (h : k ∉ skeys s) : kput s k v = s ++ [(k, v)] := by
  induction s with
  | nil => simp [kput]
  | cons hd tl ih =>
    obtain ⟨k0, v0⟩ := hd
    rw [skeys_cons, List.mem_cons] at h
    push_neg at h
    have hne : ¬k0 = k := fun hh => h.1 hh.symm
    simp [kput, hne, ih h.2]

theorem noDictVal_kput (s : KeyStore) (k : String) (v : PyObj)
    (hs : NoDictVal s) (hv : v.isDict = false) : NoDictVal (kput s k v) := by
  induction s with
  | nil =>
    intro p hp
    simp [kput] at hp
    simp [hp, hv]
  | cons hd tl ih =>
    obtain ⟨k0, v0⟩ := hd
    have h0 : v0.isDict = false := hs (k0, v0) (by simp)
    have htl : NoDictVal tl := fun p hp => hs p (by simp [hp])
    intro p hp
    by_cases hk : k0 = k
    · simp [kput, hk] at hp
      rcases hp with hp | hp
      · simp [hp, hv]
      · exact hs p (by simp [hp])
    · simp [kput, hk] at hp
      rcases hp with hp | hp
      · simp [hp, h0]
      · exact ih htl p hp

theorem nodupKeys_kput (s : KeyStore) (k : String) (v : PyObj)
    (hs : NodupKeys s) : NodupKeys (kput s k v) := by
  induction s with
  | nil => simp [NodupKeys, kput]
  | cons hd tl ih =>
    obtain ⟨k0, v0⟩ := hd
    have hs' : k0 ∉ skeys tl ∧ NodupKeys tl := by
      simpa [NodupKeys, List.nodup_cons] using hs
    by_cases hk : k0 = k
    · subst hk
      have : NodupKeys ((k0, v) :: tl) := by
        simp [NodupKeys, List.nodup_cons]
        exact ⟨hs'.1, hs'.2⟩
      simpa [kput] using this
    · have h1 : NodupKeys (kput tl k v) := ih hs'.2
      have h2 : k0 ∉ skeys (kput tl k v) := by
        intro hm
        rcases mem_skeys_kput tl k k0 v hm with h' | h'
        · exact hs'.1 h'
        · exact hk h'
      have : NodupKeys ((k0, v0) :: kput tl k v) := by
        simp [NodupKeys, List.nodup_cons]
        exact ⟨h2, h1⟩
      simpa [kput, hk] using this

/-- The assignment loop underlying `updateKS`: store each pair in
order. -/
def putAll (s : KeyStore) (l : List (String × PyObj)) : KeyStore :=
  l.foldl (fun acc p => kput acc p.1 p.2) s

theorem updateKS_eq_putAll (s : KeyStore) (kws : List (String × PyObj)) :
    updateKS s kws = putAll s (flattenEntries Option.none kws) := rfl

@[simp] theorem putAll_nil (s : KeyStore) : putAll s [] = s := rfl

theorem putAll_cons (s : KeyStore) (k : String) (v : PyObj)
    (l : List (String × PyObj)) :
    putAll s ((k, v) :: l) = putAll (kput s k v) l := rfl

theorem kget_putAll_not_mem (l : List (String × PyObj)) (s : KeyStore)
    (k : String) (h : k ∉ l.map Prod.fst) : kget (putAll s l) k = kget s k := by
  induction l generalizing s with
  | nil => rfl
  | cons hd tl ih =>
    obtain ⟨k0, v0⟩ := hd
    rw [List.map_cons, List.mem_cons] at h
    push_neg at h
    rw [putAll_cons, ih _ h.2, kget_kput_ne _ _ _ _ h.1]

theorem kget_putAll_of_kget (l : List (String × PyObj)) (s : KeyStore)
    (k : String) (v : PyObj) (hnd : (l.map Prod.fst).Nodup)
    (h : kget l k = some v) : kget (putAll s l) k = some v := by
  induction l generalizing s with
  | nil => simp [kget] at h
  | cons hd tl ih =>
    obtain ⟨k0, v0⟩ := hd
    rw [List.map_cons, List.nodup_cons] at hnd
    by_cases hk : k0 = k
    · subst hk
      rw [kget] at h
      simp at h
      subst h
      rw [putAll_cons, kget_putAll_not_mem _ _ _ hnd.1, kget_kput_self]
    · rw [kget, if_neg hk] at h
      rw [putAll_cons]
      exact ih _ hnd.2 h

theorem mem_skeys_putAll_of_mem (l : List (String × PyObj)) (s : KeyStore)
    (a : String) (h : a ∈ skeys s) : a ∈ skeys (putAll s l) := by
  induction l generalizing s with
  | nil => exact h
  | cons hd tl ih =>
    rw [putAll_cons]
    exact ih _ (mem_skeys_kput_of_mem _ _ _ _ h)

theorem mem_skeys_putAll (l : List (String × PyObj)) (s : KeyStore)
    (a : String) (h : a ∈ skeys (putAll s l)) :
    a ∈ skeys s ∨ a ∈ l.map Prod.fst := by
  induction l generalizing s with
  | nil => exact Or.inl h
  | cons hd tl ih =>
    obtain ⟨k0, v0⟩ := hd
    rw [putAll_cons] at h
    rcases ih _ h with h' | h'
    · rcases mem_skeys_kput _ _ _ _ h' with h'' | h''
      · exact Or.inl h''
      · exact Or.inr (by simp [h''])
    · exact Or.inr (by simp [h'])

theorem noDictVal_putAll (l : List (String × PyObj)) (s : KeyStore)
    (hs : NoDictVal s) (hl : ∀ p ∈ l, p.2.isDict = false) :
    NoDictVal (putAll s l) := by
  induction l generalizing s with
  | nil => exact hs
  | cons hd tl ih =>
    obtain ⟨k0, v0⟩ := hd
    rw [putAll_cons]
    exact ih _ (noDictVal_kput _ _ _ hs (hl (k0, v0) (by simp)))
      (fun p hp => hl p (by simp [hp]))

theorem nodupKeys_putAll (l : List (String × PyObj)) (s : KeyStore)
    (hs : NodupKeys s) : NodupKeys (putAll s l) := by
  induction l generalizing s with
  | nil => exact hs
  | cons hd tl ih =>
    rw [putAll_cons]
    exact ih _ (nodupKeys_kput _ _ _ hs)

theorem putAll_of_disjoint (l : List (String × PyObj)) (s : KeyStore)
    (hd : ∀ a ∈ l.map Prod.fst, a ∉ skeys s) (hnd : (l.map Prod.fst).Nodup) :
    putAll s l = s ++ l := by
  induction l generalizing s with
  | nil => simp
  | cons hd0 tl ih =>
    obtain ⟨k0, v0⟩ := hd0
    rw [List.map_cons, List.nodup_cons] at hnd
    rw [putAll_cons, kput_of_not_mem _ _ _ (hd k0 (by simp))]
    rw [ih (s ++ [(k0, v0)]) ?_ hnd.2]
    · simp
    · intro a ha
      have h1 : a ∉ skeys s := hd a (by simp [ha])
      have h2 : a ≠ k0 := fun h => hnd.1 (h ▸ ha)
      simp [skeys, h2]
      intro x hx
      exact h1 (by simp [skeys]; exact ⟨x, hx⟩)

/-- Every entry emitted by the flattening pass carries a non-mapping
value: the recursion only stores at non-dict leaves. -/
theorem flattenEntries_noDict (pre : Option String)
    (es : List (String × PyObj)) :
    ∀ p ∈ flattenEntries pre es, p.2.isDict = false := by
  induction pre, es using flattenEntries.induct with
  | case1 pre =>
    intro p hp
    simp only [flattenEntries] at hp
    exact absurd hp (List.not_mem_nil p)
  | case2 pre k es rest ih1 ih2 =>
    intro p hp
    simp only [flattenEntries, List.mem_append] at hp
    rcases hp with hp | hp
    · exact ih1 p hp
    · exact ih2 p hp
  | case3 pre k v rest hne ih =>
    intro p hp
    cases v with
    | dictV es => exact (hne es rfl).elim
    | none =>
      simp only [flattenEntries, List.mem_cons] at hp
      rcases hp with hp | hp
      · simp [hp, PyObj.isDict]
      · exact ih p hp
    | boolV b =>
      simp only [flattenEntries, List.mem_cons] at hp
      rcases hp with hp | hp
      · simp [hp, PyObj.isDict]
      · exact ih p hp
    | intV n =>
      simp only [flattenEntries, List.mem_cons] at hp
      rcases hp with hp | hp
      · simp [hp, PyObj.isDict]
      · exact ih p hp
    | floatV q =>
      simp only [flattenEntries, List.mem_cons] at hp
      rcases hp with hp | hp
      · simp [hp, PyObj.isDict]
      · exact ih p hp
    | strV s =>
      simp only [flattenEntries, List.mem_cons] at hp
      rcases hp with hp | hp
      · simp [hp, PyObj.isDict]
      · exact ih p hp
    | listV xs =>
      simp only [flattenEntries, List.mem_cons] at hp
      rcases hp with hp | hp
      · simp [hp, PyObj.isDict]
      · exact ih p hp
    | suggester pv =>
      simp only [flattenEntries, List.mem_cons] at hp
      rcases hp with hp | hp
      · simp [hp, PyObj.isDict]
      · exact ih p hp

/-- Flattening a mapping that is already flat (no value is a dict and
no prefix is being applied) emits it unchanged. -/
theorem flattenEntries_of_noDict (es : List (String × PyObj)) (h : NoDictVal es) :
    flattenEntries Option.none es = es := by
  induction es with
  | nil => simp [flattenEntries]
  | cons hd tl ih =>
    obtain ⟨k, v⟩ := hd
    have hv : v.isDict = false := h (k, v) (by simp)
    have htl : NoDictVal tl := fun p hp => h p (by simp [hp])
    cases v
    case dictV es2 => simp [PyObj.isDict] at hv
    all_goals simp [flattenEntries, joinKey, ih htl]

theorem noDictVal_updateKS (s : KeyStore) (kws : List (String × PyObj))
    (hs : NoDictVal s) : NoDictVal (updateKS s kws) := by
  rw [updateKS_eq_putAll]
  exact noDictVal_putAll _ _ hs (flattenEntries_noDict _ _)

theorem nodupKeys_updateKS (s : KeyStore) (kws : List (String × PyObj))
    (hs : NodupKeys s) : NodupKeys (updateKS s kws) := by
  rw [updateKS_eq_putAll]
  exact nodupKeys_putAll _ _ hs

/-- Copying a well-formed dict into a fresh backend reproduces it
exactly. -/
theorem cloneStore_eq_self (s : KeyStore) (h1 : NoDictVal s)
    (h2 : NodupKeys s) : cloneStore s = s := by
  unfold cloneStore
  rw [updateKS_eq_putAll, flattenEntries_of_noDict s h1]
  rw [putAll_of_disjoint s [] (by intro a _; simp [skeys]) h2]
  simp

theorem kget_updateKS_frame (G F : KeyStore) (k : String) (v : PyObj)
    (hF : NoDictVal F) (hnd : NodupKeys F) (h : kget F k = some v) :
    kget (updateKS G F) k = some v := by
  rw [updateKS_eq_putAll, flattenEntries_of_noDict F hF]
  exact kget_putAll_of_kget F G k v hnd h

theorem mem_skeys_updateKS_left (G : KeyStore) (F : List (String × PyObj))
    (a : String) (h : a ∈ skeys G) : a ∈ skeys (updateKS G F) := by
  rw [updateKS_eq_putAll]
  exact mem_skeys_putAll_of_mem _ _ _ h

theorem mem_skeys_updateKS_frame (G F : KeyStore) (a : String)
    (hF : NoDictVal F) (h : a ∈ skeys (updateKS G F)) :
    a ∈ skeys G ∨ a ∈ skeys F := by
  rw [updateKS_eq_putAll, flattenEntries_of_noDict F hF] at h
  exact mem_skeys_putAll _ _ _ h

/-- Flattening a mapping all of whose leaves are empty mappings emits no
entry at all. -/
theorem flattenEntries_allEmpty (pre : Option String)
    (es : List (String × PyObj)) (h : allEmptyEntries es = true) :
    flattenEntries pre es = [] := by
  induction pre, es using flattenEntries.induct with
  | case1 pre => simp [flattenEntries]
  | case2 pre k es rest ih1 ih2 =>
    simp only [allEmptyEntries, Bool.and_eq_true] at h
    simp only [flattenEntries, ih1 h.1, ih2 h.2, List.nil_append]
  | case3 pre k v rest hne ih =>
    exfalso
    cases v
    case dictV es2 => exact hne es2 rfl
    all_goals simp [allEmptyEntries] at h

/-! ## Lemmas about the context stack -/

theorem applyOpTop_concat (base : List TLS) (t : TLS) (g : KeyStore) (n : Nat)
    (op : StoreOp) :
    applyOpTop ⟨base ++ [t], g, n⟩ op =
      ⟨base ++ [⟨t.handler, applyOp t.inner op⟩], g, n⟩ := by
  simp [applyOpTop, List.getLast?_concat, List.dropLast_concat]

theorem applyOps_concat (ops : List StoreOp) (base : List TLS) (t : TLS)
    (g : KeyStore) (n : Nat) :
    ∃ s', applyOps ⟨base ++ [t], g, n⟩ ops = ⟨base ++ [⟨t.handler, s'⟩], g, n⟩ := by
  induction ops generalizing t with
  | nil => exact ⟨t.inner, rfl⟩
  | cons op ops ih =>
    have hstep := applyOpTop_concat base t g n op
    have hrec := ih ⟨t.handler, applyOp t.inner op⟩
    simpa [applyOps, hstep] using hrec

theorem exitScope_concat (base : List TLS) (t : TLS) (g : KeyStore) (n : Nat) :
    exitScope t.handler ⟨base ++ [t], g, n⟩ = ⟨base, g, n⟩ := by
  simp [exitScope, List.getLast?_concat, List.dropLast_concat]

/-- Every branch of `get_or_else` returns normally: the accessor
resolution path catches the conversion errors it provokes and raises
nothing itself. -/
theorem getOrElseE_isOk (v : GetResult) (d : PyObj) : ∃ r, getOrElseE v d = .ok r := by
  cases v with
  | missing => exact ⟨d, rfl⟩
  | found pv =>
    cases pv <;> cases d <;> simp only [getOrElseE] <;> (repeat' split) <;> exact ⟨_, rfl⟩

/-- The storage layer raises `KeyError` for a key absent from the
frame. -/
theorem dictGet_singleton_absent (s : KeyStore) (k : String)
    (h : kget s k = Option.none) : dictGet [s] k = .error (.keyError k) := by
  simp [dictGet, h]

/-- Writing a non-mapping value via `put` is exactly one dict assignment. -/
theorem dput_eq_kput (s : KeyStore) (k : String) (v : PyObj)
    (hv : v.isDict = false) : dput s k v = kput s k v := by
  unfold dput
  rw [updateKS_eq_putAll]
  have h : flattenEntries Option.none [(k, v)] = [(k, v)] := by
    refine flattenEntries_of_noDict [(k, v)] ?_
    intro p hp
    simp at hp
    simp [hp, hv]
  rw [h]
  rfl

/-- Every mutation keeps the no-mapping-values invariant (put and update
both run through the flattening pass). -/
theorem noDictVal_applyOp (s : KeyStore) (op : StoreOp) (hs : NoDictVal s) :
    NoDictVal (applyOp s op) := by
  cases op with
  | put k v => exact noDictVal_updateKS _ _ hs
  | update es => exact noDictVal_updateKS _ _ hs

/-- Entering a scope pushes exactly one frame and touches nothing else
in the world. -/
theorem enterScope_world (O : List (String × PyObj)) (w : World) :
    (enterScope O w).2 =
      ⟨w.ctxStack ++ [(enterScope O w).1], w.globalStorage, w.nextId + 1⟩ := by
  unfold enterScope newTLS
  cases hc : w.ctxStack.getLast? <;> simp [hc]

theorem observedStore_congr (w1 w2 : World) (h1 : w1.ctxStack = w2.ctxStack)
    (h2 : w1.globalStorage = w2.globalStorage) :
    observedStore w1 = observedStore w2 := by
  unfold observedStore
  rw [h1, h2]

/-! ## Claims -/

/-- C2 (counterexample): the claim states that a strict (no-default)
accessor call on an absent key raises a NotFound error rather than
returning a value.  On the code it does not: for the absent key `"k"`
over an empty store, `_ParamAccessor.__call__()` (default `None`)
returns normally with the value `None` — the storage `KeyError` is
caught by `_HyperParameter.get`, which substitutes the missing sentinel,
and `get_or_else` then returns the `None` default. -/
theorem C2_strict_counterexample :
    accessorResolve [] "k" PyObj.none = .ok PyObj.none ∧
    ∀ e, accessorResolve [] "k" PyObj.none ≠ .error e := by
  refine ⟨rfl, fun e h => ?_⟩
  rw [show accessorResolve [] "k" PyObj.none = .ok PyObj.none from rfl] at h
  exact Except.noConfusion h

/-- C2 (amended): for a key absent from the frame, the storage-level
`get` raises `KeyError` (the only store-level error), but the accessor
layer catches it: a strict (no-default) call returns `None`, and no
accessor resolution path — with or without a default — ever raises. -/
theorem C2_strict_absent (s : KeyStore) (k : String)
    (hk : kget s k = Option.none) :
    dictGet [s] k = .error (.keyError k) ∧
    accessorResolve s k PyObj.none = .ok PyObj.none ∧
    ∀ (v : GetResult) (d : PyObj), ∃ r, getOrElseE v d = .ok r := by
  refine ⟨dictGet_singleton_absent s k hk, ?_, fun v d => getOrElseE_isOk v d⟩
  unfold accessorResolve hpGet
  rw [dictGet_singleton_absent s k hk]
  rfl

/-- C2 (witness): the amended statement at the concrete store
`{"a": 1}` and absent key `"b"`. -/
theorem C2_strict_absent_witness :
    dictGet [[("a", PyObj.intV 1)]] "b" = .error (.keyError "b") ∧
    accessorResolve [("a", PyObj.intV 1)] "b" PyObj.none = .ok PyObj.none ∧
    ∀ (v : GetResult) (d : PyObj), ∃ r, getOrElseE v d = .ok r :=
  C2_strict_absent [("a", PyObj.intV 1)] "b" rfl

/-- C3: default-driven coercion of a present value follows the spec
table and never raises: `get_or_else` on stored `"42"` with int default
returns the int `42`; stored `"true"` with bool default `False` returns
`True`; stored `"abc"` with int default is returned unchanged as
`"abc"`; with a `None` default the stored value is returned with no
coercion at all (a stored `Suggester` is still invoked); and every
resolution returns normally. -/
theorem C3_default_coercion :
    getOrElseE (.found (.strV "42")) (.intV 0) = .ok (.intV 42) ∧
    getOrElseE (.found (.strV "true")) (.boolV false) = .ok (.boolV true) ∧
    getOrElseE (.found (.strV "abc")) (.intV 0) = .ok (.strV "abc") ∧
    (∀ v : PyObj, getOrElseE (.found v) PyObj.none =
      .ok (match v with | .suggester p => p | w => w)) ∧
    ∀ (v : GetResult) (d : PyObj), ∃ r, getOrElseE v d = .ok r := by
  refine ⟨rfl, rfl, rfl, fun v => ?_, fun v d => getOrElseE_isOk v d⟩
  cases v <;> rfl

/-- C7 (counterexample): the claim states that a stored `Suggester`'s
product is treated exactly as if stored directly, in particular that
default-type coercion applies to it.  On the code it does not:
`get_or_else` returns `value()` immediately, before the coercion
dispatch.  A `Suggester` producing `"42"` resolved with int default `0`
yields the string `"42"`, while the directly stored `"42"` yields the
int `42`. -/
theorem C7_suggester_counterexample :
    getOrElseE (.found (.suggester (.strV "42"))) (.intV 0) = .ok (.strV "42") ∧
    getOrElseE (.found (.strV "42")) (.intV 0) = .ok (.intV 42) ∧
    PyObj.strV "42" ≠ PyObj.intV 42 := by
  refine ⟨rfl, rfl, fun h => ?_⟩
  exact PyObj.noConfusion h

/-- C7 (amended): resolution of a stored `Suggester` invokes it and
returns the produced value as-is, bypassing the default-driven coercion
rules entirely (whatever the default); coercion applies only to directly
stored values. -/
theorem C7_suggester_transparent (p d : PyObj) :
    getOrElseE (.found (.suggester p)) d = .ok p := rfl

/-- C5: flatten law.  `update({"a": {"b": 1}})` on an empty store yields
exactly the key `"a.b"` (so `keys()` contains `"a.b"` and `get("a")` is
Missing), and more generally any sequence of `put`/`update` mutations on
a store with no mapping values leaves no stored value a mapping. -/
theorem C5_flatten_law (s : KeyStore) (ops : List StoreOp) (hs : NoDictVal s) :
    updateKS [] [("a", .dictV [("b", .intV 1)])] = [("a.b", .intV 1)] ∧
    "a.b" ∈ skeys (updateKS [] [("a", .dictV [("b", .intV 1)])]) ∧
    kget (updateKS [] [("a", .dictV [("b", .intV 1)])]) "a" = Option.none ∧
    NoDictVal (ops.foldl applyOp s) := by
  have hconc : updateKS [] [("a", PyObj.dictV [("b", PyObj.intV 1)])]
      = [("a.b", PyObj.intV 1)] := by
    rw [updateKS_eq_putAll]
    simp [flattenEntries, joinKey, putAll, kput]
  refine ⟨hconc, ?_, ?_, ?_⟩
  · rw [hconc]; simp
  · rw [hconc]; simp [kget]
  · induction ops generalizing s with
    | nil => exact hs
    | cons op ops ih => exact ih _ (noDictVal_applyOp s op hs)

/-- C5 (witness): the flatten law at the empty store and the mutation
sequence `put("x", {"y": 2})`. -/
theorem C5_flatten_law_witness :
    updateKS [] [("a", .dictV [("b", .intV 1)])] = [("a.b", .intV 1)] ∧
    "a.b" ∈ skeys (updateKS [] [("a", .dictV [("b", .intV 1)])]) ∧
    kget (updateKS [] [("a", .dictV [("b", .intV 1)])]) "a" = Option.none ∧
    NoDictVal ([StoreOp.put "x" (.dictV [("y", .intV 2)])].foldl applyOp []) :=
  C5_flatten_law [] [StoreOp.put "x" (.dictV [("y", .intV 2)])]
    (fun p hp => absurd hp (List.not_mem_nil p))

/-- C9: prefix-overwrite policy.  Writing a scalar to a key `k` that is
a prefix of other flattened keys overwrites only the exact key `k`:
`get(k)` afterwards returns the new scalar, every other key (in
particular every flattened child such as `"a.b"`) keeps its prior value,
and no key disappears. -/
theorem C9_scalar_overwrite (s : KeyStore) (k k' : String) (v : PyObj)
    (hv : v.isDict = false) (hne : k' ≠ k) :
    kget (dput s k v) k = some v ∧
    kget (dput s k v) k' = kget s k' ∧
    (k' ∈ skeys s → k' ∈ skeys (dput s k v)) := by
  rw [dput_eq_kput s k v hv]
  exact ⟨kget_kput_self s k v, kget_kput_ne s k k' v hne,
    mem_skeys_kput_of_mem s k k' v⟩

/-- C9 (witness): with `a.b = 1` present, `put("a", 5)` leaves
`get("a.b") == 1` while `get("a") == 5`. -/
theorem C9_scalar_overwrite_witness :
    kget (dput [("a.b", PyObj.intV 1)] "a" (.intV 5)) "a" = some (.intV 5) ∧
    kget (dput [("a.b", PyObj.intV 1)] "a" (.intV 5)) "a.b" =
      kget [("a.b", PyObj.intV 1)] "a.b" ∧
    ("a.b" ∈ skeys [("a.b", PyObj.intV 1)] →
      "a.b" ∈ skeys (dput [("a.b", PyObj.intV 1)] "a" (.intV 5))) :=
  C9_scalar_overwrite [("a.b", PyObj.intV 1)] "a" "a.b" (.intV 5) rfl
    (by decide)

/-! ## Full `_DictStorage` object model (slots branches included)

The class declares `__slots__ = ("_storage", "_parent")`
(storage.py:110), but its base class `Storage` declares no `__slots__`,
so every instance also carries an ordinary, initially empty `__dict__`.
The real `_storage`/`_parent` attributes live in the slot descriptors
(data descriptors win over the instance `__dict__` for normal attribute
access), while the `name in self.__slots__` branches of `put` and `get`
read and write that instance `__dict__` directly — a shadow store that
the flattening update never touches and `keys()` never reports. -/

/-- The two slot names guarding `_DictStorage.put`/`_DictStorage.get`
(storage.py:110). -/
def slotNames : List String := ["_storage", "_parent"]

/-- A `_DictStorage` object: the instance `__dict__` (written only by
the slots branches) and the `_storage` dict (the key-value store
proper).  The `_parent` chain is `None` in the `TLSKVStorage` wiring,
and a lazily initialized `_storage = None` behaves as an empty dict. -/
structure DictStorage where
  shadow : KeyStore
  store : KeyStore
deriving Repr

/-- Model of `_DictStorage.put(name, value)` (storage.py:188-191) with
the slots branch: a slot name executes
`self.__dict__.__setitem__(name, value)` — the raw value, no
flattening; any other name delegates to `update({name: value})`. -/
def dsPut (d : DictStorage) (name : String) (v : PyObj) : DictStorage :=
  if name ∈ slotNames then { d with shadow := kput d.shadow name v }
  else { d with store := updateKS d.store [(name, v)] }

/-- Model of `_DictStorage.get(name)` (storage.py:177-185) with the
slots branch: a slot name returns `self.__dict__[name]`, raising
`KeyError` when the shadow dict holds no entry; any other name walks
the storage chain. -/
def dsGet (d : DictStorage) (name : String) : Except PyErr PyObj :=
  if name ∈ slotNames then
    match kget d.shadow name with
    | some v => .ok v
    | Option.none => .error (.keyError name)
  else dictGet [d.store] name

/-- Model of `_DictStorage.update(kws)` (storage.py:148-165) on the
object: there is no slots branch, always the flattening update of the
`_storage` dict. -/
def dsUpdate (d : DictStorage) (kws : List (String × PyObj)) : DictStorage :=
  { d with store := updateKS d.store kws }

/-- Model of `_DictStorage.keys()` (storage.py:143-146) on the object:
the keys of the `_storage` dict; the shadow `__dict__` is invisible. -/
def dsKeys (d : DictStorage) : List String := skeys d.store

/-- Updating with a single all-empty-leaves mapping flattens to nothing
and leaves the store unchanged. -/
theorem updateKS_allEmpty (s : KeyStore) (k : String) (d : PyObj)
    (hd : allEmptyDict d = true) : updateKS s [(k, d)] = s := by
  cases d
  case dictV es =>
    have h1 : allEmptyEntries es = true := by
      simpa [allEmptyDict] using hd
    rw [updateKS_eq_putAll]
    have h2 : flattenEntries Option.none [(k, PyObj.dictV es)] = [] := by
      simp only [flattenEntries]
      rw [flattenEntries_allEmpty _ _ h1]
      simp
    rw [h2]
    rfl
  all_goals simp [allEmptyDict] at hd

/-- C10 (counterexample): the claim states that `put(k, {})` stores
nothing for every key `k`, leaving `get(k)` Missing and the state
unchanged.  At the slot name `k = "_storage"` it fails on the code:
`_DictStorage.put` takes the `name in self.__slots__` branch
(storage.py:189-190) and writes the raw empty mapping into the
instance `__dict__`, so `get("_storage")` — a `KeyError` (Missing)
beforehand — afterwards returns the stored `{}`, and the state has
changed. -/
theorem C10_empty_slot_counterexample :
    dsGet ⟨[], [("x", PyObj.intV 1)]⟩ "_storage" =
      .error (.keyError "_storage") ∧
    dsGet (dsPut ⟨[], [("x", PyObj.intV 1)]⟩ "_storage" (.dictV []))
      "_storage" = .ok (.dictV []) ∧
    dsPut ⟨[], [("x", PyObj.intV 1)]⟩ "_storage" (.dictV []) ≠
      ⟨[], [("x", PyObj.intV 1)]⟩ := by
  refine ⟨rfl, rfl, fun h => ?_⟩
  have h2 := congrArg DictStorage.shadow h
  exact List.noConfusion h2

/-- C10 (amended): for every key outside the internal slot names
`"_storage"`/`"_parent"`, writing an empty mapping — or any nested
mapping all of whose leaves are empty mappings — stores nothing at all:
`put(k, d)` leaves the state exactly unchanged, so `get` at every key
and `keys()` are as before; and `update({k2: d})` stores nothing for
every key `k2` whatsoever, since `update` has no slots branch.  (At a
slot name, `put` instead records the raw value in the instance
`__dict__`, per the counterexample.) -/
theorem C10_empty_mapping_amended (dstor : DictStorage) (k : String)
    (d : PyObj) (hk : k ∉ slotNames) (hd : allEmptyDict d = true) :
    dsPut dstor k d = dstor ∧
    (∀ k2, dsUpdate dstor [(k2, d)] = dstor) ∧
    dsKeys (dsPut dstor k d) = dsKeys dstor ∧
    ∀ k', dsGet (dsPut dstor k d) k' = dsGet dstor k' := by
  have hput : dsPut dstor k d = dstor := by
    unfold dsPut
    rw [if_neg hk, updateKS_allEmpty _ _ _ hd]
  refine ⟨hput, fun k2 => ?_, by rw [hput], fun k' => by rw [hput]⟩
  unfold dsUpdate
  rw [updateKS_allEmpty _ _ _ hd]

/-- C10 (witness): the amended statement at the ordinary key `"a"` and
value `{"b": {}}`, over the object whose store is `{"x": 1}`. -/
theorem C10_empty_mapping_amended_witness :
    dsPut ⟨[], [("x", PyObj.intV 1)]⟩ "a" (.dictV [("b", .dictV [])]) =
      ⟨[], [("x", PyObj.intV 1)]⟩ ∧
    (∀ k2, dsUpdate ⟨[], [("x", PyObj.intV 1)]⟩
      [(k2, PyObj.dictV [("b", PyObj.dictV [])])] =
        ⟨[], [("x", PyObj.intV 1)]⟩) ∧
    dsKeys (dsPut ⟨[], [("x", PyObj.intV 1)]⟩ "a" (.dictV [("b", .dictV [])])) =
      dsKeys ⟨[], [("x", PyObj.intV 1)]⟩ ∧
    ∀ k', dsGet (dsPut ⟨[], [("x", PyObj.intV 1)]⟩ "a"
      (.dictV [("b", .dictV [])])) k' =
        dsGet ⟨[], [("x", PyObj.intV 1)]⟩ k' :=
  C10_empty_mapping_amended ⟨[], [("x", PyObj.intV 1)]⟩ "a"
    (.dictV [("b", .dictV [])]) (by decide)
    (by simp [allEmptyDict, allEmptyEntries])

/-- C8: chained accessor reads and writes.  Attribute chaining builds
the dotted key without resolving (`["a","b","c"]` builds `"a.b.c"`);
reading an undefined deep path with a default returns the default and
passes the store through completely unchanged (no key at any prefix is
created); writing through the same chained path stores the value at the
full dotted key, where it is then retrievable, and touches no other
key. -/
theorem C8_deep_path (s : KeyStore) (path : List String) (name : String)
    (d v : PyObj) (hn : chainName path Option.none = some name)
    (hv : v.isDict = false) (habs : kget s name = Option.none) :
    chainName ["a", "b", "c"] Option.none = some "a.b.c" ∧
    accessorChainRead s path d = (.ok d, s) ∧
    kget (accessorChainWrite s path v) name = some v ∧
    ∀ k', k' ≠ name → kget (accessorChainWrite s path v) k' = kget s k' := by
  have hread : accessorChainRead s path d = (accessorResolve s name d, s) := by
    simp only [accessorChainRead, hn]
  have hwrite : accessorChainWrite s path v = dput s name v := by
    simp only [accessorChainWrite, hn]
    cases v
    case dictV es => simp [PyObj.isDict] at hv
    all_goals rfl
  refine ⟨rfl, ?_, ?_, ?_⟩
  · rw [hread]
    unfold accessorResolve hpGet
    rw [dictGet_singleton_absent s name habs]
    rfl
  · rw [hwrite, dput_eq_kput _ _ _ hv, kget_kput_self]
  · intro k' hk'
    rw [hwrite, dput_eq_kput _ _ _ hv, kget_kput_ne _ _ _ _ hk']

/-- C8 (witness): reading undefined `a.b.c` with default `5` on the
store `{"x": 1}` returns `5` and changes nothing; writing `7` through
the same chain stores it at `"a.b.c"`. -/
theorem C8_deep_path_witness :
    chainName ["a", "b", "c"] Option.none = some "a.b.c" ∧
    accessorChainRead [("x", PyObj.intV 1)] ["a", "b", "c"] (.intV 5) =
      (.ok (.intV 5), [("x", PyObj.intV 1)]) ∧
    kget (accessorChainWrite [("x", PyObj.intV 1)] ["a", "b", "c"] (.intV 7))
      "a.b.c" = some (.intV 7) ∧
    ∀ k', k' ≠ "a.b.c" →
      kget (accessorChainWrite [("x", PyObj.intV 1)] ["a", "b", "c"] (.intV 7)) k' =
        kget [("x", PyObj.intV 1)] k' :=
  C8_deep_path [("x", PyObj.intV 1)] ["a", "b", "c"] "a.b.c" (.intV 5)
    (.intV 7) rfl rfl rfl

/-- C1: scope round-trip isolation.  For every world `w`, entering a
`param_scope` with any overrides `O`, performing any sequence of
`put`/`update` mutations inside the scope, and calling the matching
`exit()` leaves the caller-observed state exactly as before: the context
stack, the global baseline, and hence the store observed by the caller
are restored bit for bit — the child frame was a clone taken at `enter`,
so its mutations never reach the parent frame. -/
theorem C1_scope_roundtrip (w : World) (O : List (String × PyObj))
    (ops : List StoreOp) :
    (exitScope (enterScope O w).1.handler
        (applyOps (enterScope O w).2 ops)).ctxStack = w.ctxStack ∧
    (exitScope (enterScope O w).1.handler
        (applyOps (enterScope O w).2 ops)).globalStorage = w.globalStorage ∧
    observedStore (exitScope (enterScope O w).1.handler
        (applyOps (enterScope O w).2 ops)) = observedStore w := by
  rw [enterScope_world O w]
  obtain ⟨s', hs'⟩ := applyOps_concat ops w.ctxStack (enterScope O w).1
    w.globalStorage (w.nextId + 1)
  rw [hs']
  have hexit := exitScope_concat w.ctxStack
    ⟨(enterScope O w).1.handler, s'⟩ w.globalStorage (w.nextId + 1)
  rw [hexit]
  exact ⟨rfl, rfl, observedStore_congr _ _ rfl rfl⟩

/-- C6 (counterexample): the claim states that `exit()` with no matching
`enter()` fails loudly rather than silently doing nothing.  On the code
it is a silent no-op: `exit()` on an empty stack, and `exit()` by a
storage that is not the current top of stack, both return normally and
leave the world — stack included — completely unchanged. -/
theorem C6_unmatched_exit_counterexample :
    exitScope 7 ⟨[], [], 0⟩ = ⟨[], [], 0⟩ ∧
    exitScope 5 ⟨[⟨3, []⟩], [], 4⟩ = ⟨[⟨3, []⟩], [], 4⟩ := by
  constructor <;> rfl

/-- C6 (amended): `exit()` without a matching `enter()` on the same
stack — the stack is empty, or the exiting storage is not the current
top — is a silent no-op: the world is returned unchanged and no error
is raised. -/
theorem C6_unmatched_exit_noop (w : World) (h : Nat)
    (hcase : w.ctxStack = [] ∨
      ∃ top, w.ctxStack.getLast? = some top ∧ top.handler ≠ h) :
    exitScope h w = w := by
  rcases hcase with hc | ⟨top, hc, hne⟩
  · unfold exitScope
    rw [hc]
    rfl
  · unfold exitScope
    rw [hc]
    simp [hne]

/-- C6 (witness): the amended statement at a concrete world whose only
frame has handler `3`, exited with the stale handler `5`. -/
theorem C6_unmatched_exit_noop_witness :
    exitScope 5 ⟨[⟨3, [("a", PyObj.intV 1)]⟩], [], 4⟩ =
      ⟨[⟨3, [("a", PyObj.intV 1)]⟩], [], 4⟩ :=
  C6_unmatched_exit_noop ⟨[⟨3, [("a", PyObj.intV 1)]⟩], [], 4⟩ 5
    (Or.inr ⟨⟨3, [("a", PyObj.intV 1)]⟩, rfl, by decide⟩)

/-- C4: `freeze()` merges the active frame into the global baseline
monotonically, and only newly created stacks observe it.  With a
non-empty stack whose top frame and global baseline are well-formed
dicts: the context stack (and hence the store observed by any context
whose stack already existed) is unchanged; every key previously in the
baseline is still present; every key of the active frame is present with
the frame's value; no other key appears (so none is removed); and a
context materializing its first frame after the freeze is seeded with
the frozen values. -/
theorem C4_freeze_monotonic (w : World) (top : TLS)
    (htop : w.ctxStack.getLast? = some top)
    (hG1 : NoDictVal w.globalStorage) (hG2 : NodupKeys w.globalStorage)
    (hF1 : NoDictVal top.inner) (hF2 : NodupKeys top.inner) :
    (freezeOp w).ctxStack = w.ctxStack ∧
    observedStore (freezeOp w) = observedStore w ∧
    (∀ a, a ∈ skeys w.globalStorage → a ∈ skeys (freezeOp w).globalStorage) ∧
    (∀ k v, kget top.inner k = some v →
      kget (freezeOp w).globalStorage k = some v) ∧
    (∀ a, a ∈ skeys (freezeOp w).globalStorage →
      a ∈ skeys w.globalStorage ∨ a ∈ skeys top.inner) ∧
    (∀ n k v, kget top.inner k = some v →
      kget (observedStore ⟨[], (freezeOp w).globalStorage, n⟩) k = some v) := by
  have hfreeze : freezeOp w =
      { w with globalStorage := updateKS w.globalStorage top.inner } := by
    unfold freezeOp
    rw [htop]
  have hstack : (freezeOp w).ctxStack = w.ctxStack := by rw [hfreeze]
  have hglob : (freezeOp w).globalStorage = updateKS w.globalStorage top.inner := by
    rw [hfreeze]
  have hobs : observedStore (freezeOp w) = observedStore w := by
    unfold observedStore
    rw [hstack, htop]
  have hG1' : NoDictVal (freezeOp w).globalStorage := by
    rw [hglob]; exact noDictVal_updateKS _ _ hG1
  have hG2' : NodupKeys (freezeOp w).globalStorage := by
    rw [hglob]; exact nodupKeys_updateKS _ _ hG2
  refine ⟨hstack, hobs, ?_, ?_, ?_, ?_⟩
  · intro a ha
    rw [hglob]
    exact mem_skeys_updateKS_left _ _ _ ha
  · intro k v hk
    rw [hglob]
    exact kget_updateKS_frame _ _ _ _ hF1 hF2 hk
  · intro a ha
    rw [hglob] at ha
    exact mem_skeys_updateKS_frame _ _ _ hF1 ha
  · intro n k v hk
    have hseed : observedStore ⟨[], (freezeOp w).globalStorage, n⟩ =
        (freezeOp w).globalStorage := by
      unfold observedStore
      simp only [List.getLast?]
      exact cloneStore_eq_self _ hG1' hG2'
    rw [hseed, hglob]
    exact kget_updateKS_frame _ _ _ _ hF1 hF2 hk

/-- C4 (witness): freezing the world whose single frame holds
`{"a": 1}` over the baseline `{"b": 2}`. -/
theorem C4_freeze_monotonic_witness :
    (freezeOp ⟨[⟨0, [("a", PyObj.intV 1)]⟩], [("b", PyObj.intV 2)], 1⟩).ctxStack =
      [⟨0, [("a", PyObj.intV 1)]⟩] ∧
    observedStore (freezeOp ⟨[⟨0, [("a", PyObj.intV 1)]⟩], [("b", PyObj.intV 2)], 1⟩) =
      observedStore ⟨[⟨0, [("a", PyObj.intV 1)]⟩], [("b", PyObj.intV 2)], 1⟩ ∧
    (∀ a, a ∈ skeys [("b", PyObj.intV 2)] →
      a ∈ skeys (freezeOp ⟨[⟨0, [("a", PyObj.intV 1)]⟩], [("b", PyObj.intV 2)], 1⟩).globalStorage) ∧
    (∀ k v, kget [("a", PyObj.intV 1)] k = some v →
      kget (freezeOp ⟨[⟨0, [("a", PyObj.intV 1)]⟩], [("b", PyObj.intV 2)], 1⟩).globalStorage k = some v) ∧
    (∀ a, a ∈ skeys (freezeOp ⟨[⟨0, [("a", PyObj.intV 1)]⟩], [("b", PyObj.intV 2)], 1⟩).globalStorage →
      a ∈ skeys [("b", PyObj.intV 2)] ∨ a ∈ skeys [("a", PyObj.intV 1)]) ∧
    (∀ n k v, kget [("a", PyObj.intV 1)] k = some v →
      kget (observedStore ⟨[],
        (freezeOp ⟨[⟨0, [("a", PyObj.intV 1)]⟩], [("b", PyObj.intV 2)], 1⟩).globalStorage, n⟩) k = some v) :=
  C4_freeze_monotonic ⟨[⟨0, [("a", PyObj.intV 1)]⟩], [("b", PyObj.intV 2)], 1⟩
    ⟨0, [("a", PyObj.intV 1)]⟩ rfl
    (fun p hp => by simp at hp; simp [hp, PyObj.isDict])
    (by simp [NodupKeys])
    (fun p hp => by simp at hp; simp [hp, PyObj.isDict])
    (by simp [NodupKeys])

end HyperParam
